import Mathlib

/-!
Shallow embedding of `ampm.py` (a simple process monitor).

Modelling conventions:
- Python `float` values (CPU percentages, the sampling interval, the clock
  frequency) are modelled as `ℚ`; Python `int` values as `ℤ`/`ℕ`.
- `CPUTime.CLK_TCK` is resolved from the environment (`getconf CLK_TCK`) at
  program start; it is passed to the embedded functions as an explicit
  parameter `clk`.
- Field names keep the source's underscore-prefixed attribute names
  (`_utime`, `_cpu`, `_read`, ...), and methods keep the source's names.
-/

/-- Record of the `CPUTime` object built by `CPUTime.__init__`
(src/ampm.py lines 16-22): the four cumulative tick counters and the derived
cap `_cpu_max = num_threads * 100.0`. -/
structure CPUTime where
  _utime : ℤ
  _stime : ℤ
  _cutime : ℤ
  _cstime : ℤ
  _cpu_max : ℚ
deriving DecidableEq, Repr

/-- Embeds `CPUTime.__init__(utime, stime, cutime, cstime, num_threads)`:
stores the four counters and `_cpu_max = num_threads * 100.0`.  Thread counts
read from the kernel are non-negative, so `num_threads : ℕ`. -/
def CPUTime.ofCounters (utime stime cutime cstime : ℤ) (num_threads : ℕ) :
    CPUTime :=
  { _utime := utime, _stime := stime, _cutime := cutime, _cstime := cstime,
    _cpu_max := (num_threads : ℚ) * 100 }

/-- Sum of the four tick deltas computed inside `CPUTime.usage`
(src/ampm.py lines 25-28): `diff = (diff_usage._utime - self._utime) + ...`. -/
def CPUTime.tickDiff (self diff_usage : CPUTime) : ℤ :=
  (diff_usage._utime - self._utime) + (diff_usage._stime - self._stime) +
    (diff_usage._cutime - self._cutime) + (diff_usage._cstime - self._cstime)

/-- Embeds `CPUTime.usage(self, interval, diff_usage)` (src/ampm.py
lines 24-32), with the ambient `CPUTime.CLK_TCK` passed as `clk`:
`usage = (diff/(interval * CLK_TCK))*100.0`, returned as-is unless it
exceeds `diff_usage._cpu_max`, in which case the cap is returned. -/
def CPUTime.usage (self : CPUTime) (interval : ℚ) (diff_usage : CPUTime)
    (clk : ℚ) : ℚ :=
  let usage : ℚ := ((self.tickDiff diff_usage : ℚ) / (interval * clk)) * 100
  if usage > diff_usage._cpu_max then diff_usage._cpu_max else usage

/-- C2: for every pair of snapshots, positive interval and positive clock
frequency, `usage` never exceeds `100 × num_threads` of the later snapshot,
however large the tick deltas; and when the summed tick deltas are negative
the raw negative quotient is returned unclamped (no flooring at 0). -/
theorem c2_usage_capped_above_unbounded_below (prev : CPUTime)
    (u s cu cs : ℤ) (nt : ℕ) (interval clk : ℚ)
    (hi : 0 < interval) (hc : 0 < clk) :
    CPUTime.usage prev interval (CPUTime.ofCounters u s cu cs nt) clk ≤
        100 * (nt : ℚ) ∧
    (CPUTime.tickDiff prev (CPUTime.ofCounters u s cu cs nt) < 0 →
      CPUTime.usage prev interval (CPUTime.ofCounters u s cu cs nt) clk =
          ((CPUTime.tickDiff prev (CPUTime.ofCounters u s cu cs nt) : ℚ) /
            (interval * clk)) * 100 ∧
      CPUTime.usage prev interval (CPUTime.ofCounters u s cu cs nt) clk < 0) := by
  have hmax : (CPUTime.ofCounters u s cu cs nt)._cpu_max = (nt : ℚ) * 100 := rfl
  constructor
  · simp only [CPUTime.usage]
    split
    · rw [hmax]; ring_nf; exact le_rfl
    · next h =>
      rw [not_lt] at h
      calc _ ≤ (CPUTime.ofCounters u s cu cs nt)._cpu_max := h
        _ = 100 * (nt : ℚ) := by rw [hmax]; ring
  · intro hneg
    have hpos : (0 : ℚ) < interval * clk := mul_pos hi hc
    have hraw :
        ((CPUTime.tickDiff prev (CPUTime.ofCounters u s cu cs nt) : ℚ) /
          (interval * clk)) * 100 < 0 := by
      apply mul_neg_of_neg_of_pos _ (by norm_num)
      apply div_neg_of_neg_of_pos _ hpos
      exact_mod_cast hneg
    have hnn : (0 : ℚ) ≤ (CPUTime.ofCounters u s cu cs nt)._cpu_max := by
      rw [hmax]; positivity
    simp only [CPUTime.usage]
    rw [if_neg (by push_neg; linarith)]
    exact ⟨rfl, hraw⟩

/-- Witness for `c2_usage_capped_above_unbounded_below` at previous counters
(5,0,0,0), current counters (0,0,0,0) with one thread (summed delta −5),
interval 1 and clock frequency 100. -/
theorem c2_usage_capped_above_unbounded_below_witness :
    CPUTime.usage (CPUTime.ofCounters 5 0 0 0 1) 1
        (CPUTime.ofCounters 0 0 0 0 1) 100 ≤ 100 * ((1 : ℕ) : ℚ) ∧
    (CPUTime.tickDiff (CPUTime.ofCounters 5 0 0 0 1)
        (CPUTime.ofCounters 0 0 0 0 1) < 0 →
      CPUTime.usage (CPUTime.ofCounters 5 0 0 0 1) 1
          (CPUTime.ofCounters 0 0 0 0 1) 100 =
        ((CPUTime.tickDiff (CPUTime.ofCounters 5 0 0 0 1)
            (CPUTime.ofCounters 0 0 0 0 1) : ℚ) / (1 * 100)) * 100 ∧
      CPUTime.usage (CPUTime.ofCounters 5 0 0 0 1) 1
          (CPUTime.ofCounters 0 0 0 0 1) 100 < 0) :=
  c2_usage_capped_above_unbounded_below (CPUTime.ofCounters 5 0 0 0 1)
    0 0 0 0 1 1 100 (by norm_num) (by norm_num)

/-- C3: `usage` equals the capped quotient
`min cap ((Σ tick deltas)/(interval × clk) × 100)`; in particular with tick
deltas summing to 200, interval 1, clock 100 and one thread, the raw value is
200 and the returned value is 100. -/
theorem c3_usage_formula_and_example (prev diff_usage : CPUTime)
    (interval clk : ℚ) :
    CPUTime.usage prev interval diff_usage clk =
        min diff_usage._cpu_max
          (((prev.tickDiff diff_usage : ℚ) / (interval * clk)) * 100) ∧
    ((CPUTime.tickDiff (CPUTime.ofCounters 0 0 0 0 1)
        (CPUTime.ofCounters 50 50 50 50 1) : ℚ) / (1 * 100)) * 100 = 200 ∧
    CPUTime.usage (CPUTime.ofCounters 0 0 0 0 1) 1
        (CPUTime.ofCounters 50 50 50 50 1) 100 = 100 := by
  refine ⟨?_, by norm_num [CPUTime.tickDiff, CPUTime.ofCounters],
    by norm_num [CPUTime.usage, CPUTime.tickDiff, CPUTime.ofCounters]⟩
  simp only [CPUTime.usage]
  rcases lt_or_le diff_usage._cpu_max
      (((prev.tickDiff diff_usage : ℚ) / (interval * clk)) * 100) with h | h
  · rw [if_pos h, min_eq_left (le_of_lt h)]
  · rw [if_neg (not_lt.mpr h), min_eq_right h]

/-- State of a `UsageHistory` object as set up by `UsageHistory.__init__`
(src/ampm.py lines 37-43): parallel sample lists `_cpu`/`_rss`, the write
cursor `_index` and read cursor `_read` (both starting at −1), and the
terminal flag `_term`.  The condition variable `_cv` only serialises the
methods; in this sequential embedding each method is one atomic step. -/
structure UsageHistory where
  _cpu : List ℚ
  _rss : List ℤ
  _index : ℤ
  _read : ℤ
  _term : Bool
deriving DecidableEq, Repr

/-- Embeds `UsageHistory.__init__` (src/ampm.py lines 37-43). -/
def UsageHistory.init : UsageHistory :=
  { _cpu := [], _rss := [], _index := -1, _read := -1, _term := false }

/-- Embeds `UsageHistory.append(cpu, rss)` (src/ampm.py lines 45-50):
push both values and advance the write cursor (`notify` has no sequential
effect). -/
def UsageHistory.append (self : UsageHistory) (cpu : ℚ) (rss : ℤ) :
    UsageHistory :=
  { self with
    _cpu := self._cpu ++ [cpu]
    _rss := self._rss ++ [rss]
    _index := self._index + 1 }

/-- Embeds `UsageHistory.get()` (src/ampm.py lines 52-59).  `none` models the
call blocking in `_cv.wait()` (nothing new and not terminated).  Otherwise,
exactly as in the source, when `_index != _read` the read cursor advances and
the entries at position `_index` — not `_read` — are returned with `True`;
when terminated and drained the fixed triple `(0.0, 0, False)` is returned.
List indexing uses `getD` with default 0; on every reachable call the source
index `_index` is within bounds, where it agrees with Python indexing. -/
def UsageHistory.get (self : UsageHistory) :
    Option ((ℚ × ℤ × Bool) × UsageHistory) :=
  if self._index = self._read ∧ self._term = false then
    none
  else if self._index ≠ self._read then
    some ((self._cpu.getD self._index.toNat 0,
           self._rss.getD self._index.toNat 0, true),
      { self with _read := self._read + 1 })
  else
    some ((0, 0, false), self)

/-- Embeds `UsageHistory.term()` (src/ampm.py lines 61-64): set the terminal
flag. -/
def UsageHistory.term (self : UsageHistory) : UsageHistory :=
  { self with _term := true }

/-- Embeds `UsageHistory.empty()` (src/ampm.py lines 70-72). -/
def UsageHistory.empty (self : UsageHistory) : Bool :=
  self._cpu.length = 0 ∨ self._rss.length = 0

/-- Python's built-in `max` on a list: raises on `[]` (modelled by `none`),
otherwise folds the binary maximum over the elements. -/
def pyListMax {α : Type} [LinearOrder α] : List α → Option α
  | [] => none
  | x :: xs => some (xs.foldl max x)

/-- Python's built-in `min` on a list: raises on `[]` (modelled by `none`),
otherwise folds the binary minimum over the elements. -/
def pyListMin {α : Type} [LinearOrder α] : List α → Option α
  | [] => none
  | x :: xs => some (xs.foldl min x)

/-- Embeds `UsageHistory.max()` (src/ampm.py lines 74-76):
`(max(self._cpu), max(self._rss))`, componentwise over the two lists. -/
def UsageHistory.max (self : UsageHistory) : Option (ℚ × ℤ) :=
  match pyListMax self._cpu, pyListMax self._rss with
  | some c, some r => some (c, r)
  | _, _ => none

/-- Embeds `UsageHistory.min()` (src/ampm.py lines 78-80):
`(min(self._cpu), min(self._rss))`, componentwise over the two lists. -/
def UsageHistory.min (self : UsageHistory) : Option (ℚ × ℤ) :=
  match pyListMin self._cpu, pyListMin self._rss with
  | some c, some r => some (c, r)
  | _, _ => none

/-- Embeds `UsageHistory.ave()` (src/ampm.py lines 82-85):
`sum(self._cpu)/len(self._cpu)` is Python true division (exact in `ℚ`) and
`sum(self._rss)//len(self._rss)` is Python floor division (`Int.fdiv`);
division by zero raises, modelled by `none` on an empty list. -/
def UsageHistory.ave (self : UsageHistory) : Option (ℚ × ℤ) :=
  if self._cpu.length = 0 ∨ self._rss.length = 0 then none
  else some (self._cpu.sum / (self._cpu.length : ℚ),
    Int.fdiv self._rss.sum (self._rss.length : ℤ))

/-- One operation on a shared `UsageHistory`, for reachability statements:
the producer's `append`, the consumer's `get`, and `term`. -/
inductive HistoryOp where
  | append (cpu : ℚ) (rss : ℤ)
  | get
  | term
deriving DecidableEq, Repr

/-- Effect of one operation on the history state; a `get` that would block
leaves the state unchanged (the blocked call has not completed). -/
def HistoryOp.apply (op : HistoryOp) (s : UsageHistory) : UsageHistory :=
  match op with
  | .append c r => s.append c r
  | .get =>
    match s.get with
    | some (_, s2) => s2
    | none => s
  | .term => s.term

/-- State after running a sequence of operations from the initial state. -/
def runOps (ops : List HistoryOp) : UsageHistory :=
  ops.foldl (fun s op => op.apply s) UsageHistory.init

/-- One iteration's kernel reads inside `run`'s while loop (src/ampm.py
lines 150-163): either both `read_stat` and `read_smaps` succeed with the
given snapshot and RSS value, or `read_stat` raises, or `read_stat` succeeds
and `read_smaps` raises.  Exceptions from the `/proc` reads abort the loop
before any partial sample is appended. -/
inductive TickRead where
  | ok (stat : CPUTime) (rss : ℤ)
  | statFail
  | smapsFail (stat : CPUTime)
deriving DecidableEq, Repr

/-- Whether the tick's kernel reads both succeed. -/
def TickRead.isOk : TickRead → Bool
  | .ok _ _ => true
  | _ => false

/-- Embeds the `while times > 0` loop of `run` (src/ampm.py lines 150-163),
driven by the per-tick kernel-read outcomes in `reads` (the sleeps only pace
the loop).  Each successful tick appends
`prev_cpu.usage(interval, diff_cpu)` and the RSS value, then continues with
`prev_cpu = diff_cpu` and `times - 1`; a failing read raises out of the loop
(second component `true`).  An exhausted `reads` list stands for the
operator's interrupt: the loop stops with no further append. -/
def samplingLoop (clk interval : ℚ) :
    List TickRead → ℕ → CPUTime → UsageHistory → UsageHistory × Bool
  | _, 0, _, h => (h, false)
  | [], _ + 1, _, h => (h, false)
  | .statFail :: _, _ + 1, _, h => (h, true)
  | .smapsFail _ :: _, _ + 1, _, h => (h, true)
  | .ok st rss :: rest, t + 1, prev, h =>
    samplingLoop clk interval rest t st
      (h.append (prev.usage interval st clk) rss)

/-- Outcome of `run` (src/ampm.py lines 128-170): the final history, whether
a kernel read raised out of the loop, and whether `print_summary` ran. -/
structure RunResult where
  hist : UsageHistory
  readerFailed : Bool
  summaryPrinted : Bool
deriving DecidableEq, Repr

/-- Embeds `run(pid, rate, duration, output_type)` from its first in-loop
tick onward (src/ampm.py lines 128-170): the loop of `samplingLoop` runs with
`interval = 1/rate` and tick budget `times` (`sys.maxsize` when
`duration == 0`, else `int(duration * rate)`), starting from the baseline
snapshot `b_cpu` and a fresh history; whatever ends the loop — budget spent,
interrupt, or a kernel-read exception — the `finally` block calls
`hist.term()`, joins the printer and prints the summary iff `not
hist.empty()`. -/
def run (clk rate : ℚ) (times : ℕ) (b_cpu : CPUTime) (reads : List TickRead) :
    RunResult :=
  let interval := 1 / rate
  let res := samplingLoop clk interval reads times b_cpu UsageHistory.init
  let hist := res.1.term
  { hist := hist, readerFailed := res.2, summaryPrinted := !hist.empty }

/-- Outcome of the `__main__` rate check: exit with status 1, or proceed into
`run`. -/
inductive MainOutcome where
  | rejected (exitCode : ℕ)
  | proceed
deriving DecidableEq, Repr

/-- Embeds the guard of `__main__` (src/ampm.py lines 193-196): if
`args.rate > float(CPUTime.CLK_TCK)/2.0` the error is reported and the
program exits with status 1 before any sampling; otherwise `run` is
entered. -/
def mainRateCheck (clk rate : ℚ) : MainOutcome :=
  if rate > clk / 2 then .rejected 1 else .proceed

/-- C1 fails on the code: after appending the samples (1, 1) then (2, 2),
both successful `get` calls return the entries at position `_index` — the
latest sample (2, 2) — twice, while advancing the read cursor; the first
sample (1, 1) is skipped and the second is duplicated, refuting the claimed
order-preserving no-loss/no-duplication law. -/
theorem c1_get_skips_first_and_duplicates_last :
    ((UsageHistory.init.append 1 1).append 2 2).get =
      some ((2, 2, true),
        { _cpu := [1, 2], _rss := [1, 2], _index := 1, _read := 0,
          _term := false }) ∧
    ({ _cpu := [1, 2], _rss := [1, 2], _index := 1, _read := 0,
        _term := false } : UsageHistory).get =
      some ((2, 2, true),
        { _cpu := [1, 2], _rss := [1, 2], _index := 1, _read := 1,
          _term := false }) := by
  exact ⟨by decide, by decide⟩

/-- C4: in a terminated and fully drained state, `get` returns `ok = false`
and leaves the state unchanged (hence every later `get` does too); no
operation ever clears the terminal flag; and `term` is idempotent. -/
theorem c4_terminated_drained_get_false_forever :
    (∀ s : UsageHistory, s._term = true → s._index = s._read →
      s.get = some ((0, 0, false), s)) ∧
    (∀ (s : UsageHistory) (op : HistoryOp), s._term = true →
      (op.apply s)._term = true) ∧
    (∀ s : UsageHistory, s.term.term = s.term) := by
  refine ⟨?_, ?_, ?_⟩
  · intro s ht hd
    simp [UsageHistory.get, hd, ht]
  · intro s op ht
    cases op with
    | append c r => simpa [HistoryOp.apply, UsageHistory.append] using ht
    | term => simp [HistoryOp.apply, UsageHistory.term]
    | get =>
      simp only [HistoryOp.apply, UsageHistory.get, ht]
      by_cases h2 : s._index ≠ s._read
      · simp [h2, ht]
      · simp [h2, ht]
  · intro s
    simp [UsageHistory.term]

/-- Witness for `c4_terminated_drained_get_false_forever`: the freshly
initialised history, terminated, is drained and its `get` returns the failed
triple with the state unchanged. -/
theorem c4_terminated_drained_get_false_forever_witness :
    (UsageHistory.init.term).get =
      some ((0, 0, false), UsageHistory.init.term) :=
  c4_terminated_drained_get_false_forever.1 UsageHistory.init.term rfl rfl

/-- Auxiliary invariant for C5: folding any operation sequence over a state
whose read cursor is at most its write cursor preserves that inequality. -/
theorem foldOps_read_le_index (ops : List HistoryOp) (s : UsageHistory)
    (h : s._read ≤ s._index) :
    (ops.foldl (fun t op => op.apply t) s)._read ≤
      (ops.foldl (fun t op => op.apply t) s)._index := by
  induction ops generalizing s with
  | nil => exact h
  | cons op rest ih =>
    apply ih
    cases op with
    | append c r =>
      simp only [HistoryOp.apply, UsageHistory.append]
      omega
    | term =>
      simpa [HistoryOp.apply, UsageHistory.term] using h
    | get =>
      by_cases h1 : s._index = s._read ∧ s._term = false
      · simp [HistoryOp.apply, UsageHistory.get, h1]
      · by_cases h2 : s._index ≠ s._read
        · have hlt : s._read < s._index := lt_of_le_of_ne h (fun e => h2 e.symm)
          simp only [HistoryOp.apply, UsageHistory.get, if_neg h1, if_pos h2]
          omega
        · simp [HistoryOp.apply, UsageHistory.get, h1, h2, h]

/-- C5: in every state reachable from the initial history by `append`, `get`
and `term` operations, the read cursor never exceeds the write cursor. -/
theorem c5_read_cursor_le_write_cursor (ops : List HistoryOp) :
    (runOps ops)._read ≤ (runOps ops)._index :=
  foldOps_read_le_index ops UsageHistory.init le_rfl

/-- History holding exactly the samples (10, 100), (50, 300), (30, 200), in
that order. -/
def histThreeSamples : UsageHistory :=
  ((UsageHistory.init.append 10 100).append 50 300).append 30 200

/-- C8: over the history holding (10,100), (50,300), (30,200), `max` returns
(50, 300), `min` returns (10, 100) and `ave` returns (30, 200), CPU and
memory computed independently over the stored lists. -/
theorem c8_summary_statistics :
    histThreeSamples.max = some (50, 300) ∧
    histThreeSamples.min = some (10, 100) ∧
    histThreeSamples.ave = some (30, 200) := by
  refine ⟨by decide, by decide, ?_⟩
  norm_num [histThreeSamples, UsageHistory.ave, UsageHistory.append,
    UsageHistory.init]
  decide

/-- C9: a `get` on a terminated, fully drained history returns exactly the
triple (0.0, 0, False) — fixed dummy zeros, not data from any stored
sample. -/
theorem c9_failed_get_returns_fixed_zeros (s : UsageHistory)
    (ht : s._term = true) (hd : s._index = s._read) :
    s.get = some ((0, 0, false), s) := by
  simp [UsageHistory.get, hd, ht]

/-- Witness for `c9_failed_get_returns_fixed_zeros` on a drained terminated
history that stores the sample (3, 4): the failed `get` still returns
(0, 0, false). -/
theorem c9_failed_get_returns_fixed_zeros_witness :
    ({ _cpu := [3], _rss := [4], _index := 0, _read := 0, _term := true } :
        UsageHistory).get =
      some ((0, 0, false),
        { _cpu := [3], _rss := [4], _index := 0, _read := 0,
          _term := true }) :=
  c9_failed_get_returns_fixed_zeros _ rfl rfl

/-- C6: with clock frequency 100 the configured rate 51 is rejected with
exit status 1 before any sampling and rate 50 is accepted; in general the
rate check rejects exactly the rates strictly above half the clock
frequency. -/
theorem c6_rate_above_half_clock_rejected :
    mainRateCheck 100 51 = MainOutcome.rejected 1 ∧
    mainRateCheck 100 50 = MainOutcome.proceed ∧
    (∀ clk rate : ℚ, rate > clk / 2 →
      mainRateCheck clk rate = MainOutcome.rejected 1) ∧
    (∀ clk rate : ℚ, rate ≤ clk / 2 →
      mainRateCheck clk rate = MainOutcome.proceed) := by
  refine ⟨by norm_num [mainRateCheck], by norm_num [mainRateCheck], ?_, ?_⟩
  · intro clk rate hgt
    simp [mainRateCheck, hgt]
  · intro clk rate hle
    simp [mainRateCheck, not_lt.mpr hle]

/-- Witness for `c6_rate_above_half_clock_rejected`: rate 51 against clock
frequency 100 is rejected with exit status 1. -/
theorem c6_rate_above_half_clock_rejected_witness :
    mainRateCheck 100 51 = MainOutcome.rejected 1 :=
  c6_rate_above_half_clock_rejected.2.2.1 100 51 (by norm_num)

/-- History holding the samples (1, 1) and (2, 2), whose memory values sum
to 3 over 2 samples. -/
def histTwoSamples : UsageHistory :=
  (UsageHistory.init.append 1 1).append 2 2

/-- C10: on a non-empty history `ave` returns the CPU mean as the exact
quotient (true division) and the memory mean as the floor division
`sum // count`, which never exceeds the arithmetic mean; on the history with
memory values 1 and 2 the reported memory mean 1 is strictly below the
arithmetic mean 3/2. -/
theorem c10_ave_floor_divides_memory :
    (∀ h : UsageHistory, h._cpu ≠ [] → h._rss ≠ [] →
      h.ave = some (h._cpu.sum / (h._cpu.length : ℚ),
          Int.fdiv h._rss.sum (h._rss.length : ℤ)) ∧
      ((Int.fdiv h._rss.sum (h._rss.length : ℤ) : ℚ) ≤
        (h._rss.sum : ℚ) / (h._rss.length : ℚ))) ∧
    (histTwoSamples.ave = some (3 / 2, 1) ∧ (1 : ℚ) < 3 / 2) := by
  constructor
  · intro h hc hr
    constructor
    · simp [UsageHistory.ave, List.length_eq_zero, hc, hr]
    · have hl : (0 : ℤ) ≤ (h._rss.length : ℤ) := by positivity
      rw [Int.fdiv_eq_ediv _ hl,
        ← Rat.floor_intCast_div_natCast h._rss.sum h._rss.length]
      exact_mod_cast Int.floor_le ((h._rss.sum : ℚ) / (h._rss.length : ℚ))
  · constructor
    · norm_num [histTwoSamples, UsageHistory.ave, UsageHistory.append,
        UsageHistory.init]
      decide
    · norm_num

/-- Witness for `c10_ave_floor_divides_memory` at the two-sample history:
its `ave` is the exact CPU quotient paired with the floored memory quotient,
and the floored value is at most the arithmetic mean. -/
theorem c10_ave_floor_divides_memory_witness :
    histTwoSamples.ave = some (histTwoSamples._cpu.sum /
        (histTwoSamples._cpu.length : ℚ),
      Int.fdiv histTwoSamples._rss.sum (histTwoSamples._rss.length : ℤ)) ∧
    ((Int.fdiv histTwoSamples._rss.sum (histTwoSamples._rss.length : ℤ) : ℚ) ≤
      (histTwoSamples._rss.sum : ℚ) / (histTwoSamples._rss.length : ℚ)) :=
  c10_ave_floor_divides_memory.1 histTwoSamples (by decide) (by decide)

/-- Auxiliary for C7: the sampling loop appends CPU and RSS entries in
lock-step, so the two lists stay the same length. -/
theorem samplingLoop_rss_length_eq (clk interval : ℚ) (reads : List TickRead)
    (t : ℕ) (prev : CPUTime) (h : UsageHistory)
    (hl : h._rss.length = h._cpu.length) :
    (samplingLoop clk interval reads t prev h).1._rss.length =
      (samplingLoop clk interval reads t prev h).1._cpu.length := by
  induction reads generalizing t prev h with
  | nil => cases t <;> simpa [samplingLoop] using hl
  | cons r rest ih =>
    cases t with
    | zero => simpa [samplingLoop] using hl
    | succ n =>
      cases r with
      | ok st rss =>
        rw [samplingLoop]
        exact ih n st _ (by simp [UsageHistory.append, hl])
      | statFail => simpa [samplingLoop] using hl
      | smapsFail st => simpa [samplingLoop] using hl

/-- Auxiliary for C7: the loop collects exactly one sample per successful
tick up to the first failing kernel read (and at most the tick budget),
so nothing is sampled after a failure. -/
theorem samplingLoop_cpu_length (clk interval : ℚ) (reads : List TickRead)
    (t : ℕ) (prev : CPUTime) (h : UsageHistory) :
    (samplingLoop clk interval reads t prev h).1._cpu.length =
      h._cpu.length + min t (reads.takeWhile TickRead.isOk).length := by
  induction reads generalizing t prev h with
  | nil => cases t <;> simp [samplingLoop]
  | cons r rest ih =>
    cases t with
    | zero => simp [samplingLoop]
    | succ n =>
      cases r with
      | ok st rss =>
        rw [samplingLoop, ih]
        simp [UsageHistory.append, List.takeWhile_cons, TickRead.isOk]
        omega
      | statFail => simp [samplingLoop, List.takeWhile_cons, TickRead.isOk]
      | smapsFail st => simp [samplingLoop, List.takeWhile_cons, TickRead.isOk]

/-- C7: whatever the per-tick kernel-read outcomes, `run` always leaves the
history terminated; the summary is printed exactly when at least one sample
was collected; and the samples collected are exactly one per successful tick
before the first failing read (no further tick is started after a
failure). -/
theorem c7_reader_failure_drains_and_summarises (clk rate : ℚ) (times : ℕ)
    (b_cpu : CPUTime) (reads : List TickRead) :
    (run clk rate times b_cpu reads).hist._term = true ∧
    ((run clk rate times b_cpu reads).summaryPrinted = true ↔
      (run clk rate times b_cpu reads).hist._cpu ≠ []) ∧
    (run clk rate times b_cpu reads).hist._cpu.length =
      min times (reads.takeWhile TickRead.isOk).length := by
  have hrss := samplingLoop_rss_length_eq clk (1 / rate) reads times b_cpu
    UsageHistory.init (by simp [UsageHistory.init])
  have hcpu := samplingLoop_cpu_length clk (1 / rate) reads times b_cpu
    UsageHistory.init
  refine ⟨rfl, ?_, ?_⟩
  · show (!(samplingLoop clk (1 / rate) reads times b_cpu
        UsageHistory.init).1.term.empty) = true ↔ _
    simp only [UsageHistory.term, UsageHistory.empty, Bool.not_eq_true',
      decide_eq_false_iff_not, not_or, List.length_eq_zero]
    constructor
    · intro hn
      exact hn.1
    · intro hne
      refine ⟨hne, fun he => hne ?_⟩
      have h0 : (samplingLoop clk (1 / rate) reads times b_cpu
          UsageHistory.init).1._cpu.length = 0 := by
        rw [← hrss, he, List.length_nil]
      exact List.length_eq_zero.mp h0
  · simpa [run, UsageHistory.term, UsageHistory.init] using hcpu
